import Mathlib

/-!
Verification of the procedural planet-texture synthesis engine in
`backend/app/texture_generator.py` (class `TextureGenerator`).

Modelling conventions:
* Python strings are modelled as `List Char`; `"…".toList` denotes a literal.
* Python float arithmetic is modelled over `ℚ`; Python's `int(…)` conversion
  (truncation toward zero) is `pyInt`.
* The Perlin noise function `pnoise2` from the external `noise` library is a
  parameter `noise : ℚ → ℚ → ℕ → ℚ` (arguments: the two scaled coordinates and
  the `octaves` keyword), and `math.sqrt` is a parameter `sqrtQ : ℚ → ℚ`;
  both are pure functions in the source.
* `hashlib.md5(…).hexdigest()` is a parameter `md5hex : List Char → List Char`;
  the source only uses that it is a fixed function producing a 32-character
  hex digest.
* The filesystem used by `os.path.exists` / `Image.save` is a predicate
  `fs : List Char → Bool` on paths.
* RGB pixels are `ℤ × ℤ × ℤ` (the values the source computes and assigns,
  before the image library stores them).
-/

/-- Python `int(q)` on a float: truncation toward zero. -/
def pyInt (q : ℚ) : ℤ := if 0 ≤ q then q.floor else -(-q).floor

/-- `Rat.floor` agrees with the ambient `Int.floor` on `ℚ`. -/
theorem ratFloor_eq_intFloor (q : ℚ) : q.floor = ⌊q⌋ :=
  (Rat.floor_def' q).trans Rat.floor_def.symm

/-- On nonnegative rationals, `pyInt` is the floor. -/
theorem pyInt_of_nonneg {q : ℚ} (h : 0 ≤ q) : pyInt q = ⌊q⌋ := by
  simp [pyInt, h, ratFloor_eq_intFloor]

/-- `pyInt` of a nonnegative rational is nonnegative. -/
theorem pyInt_nonneg {q : ℚ} (h : 0 ≤ q) : 0 ≤ pyInt q := by
  rw [pyInt_of_nonneg h]
  exact Int.floor_nonneg.mpr h

/-- `pyInt` of a nonnegative rational below an integer bound stays below it. -/
theorem pyInt_lt {q : ℚ} {n : ℤ} (h0 : 0 ≤ q) (h : q < (n : ℚ)) : pyInt q < n := by
  rw [pyInt_of_nonneg h0]
  exact Int.floor_lt.mpr h

/-- `pyInt` of a nonnegative rational at or below an integer bound stays at or below it. -/
theorem pyInt_le {q : ℚ} {n : ℤ} (h0 : 0 ≤ q) (h : q ≤ (n : ℚ)) : pyInt q ≤ n := by
  rw [pyInt_of_nonneg h0]
  exact_mod_cast (Int.floor_le q).trans h

/-- Whether a character is a hexadecimal digit, the alphabet accepted by
Python's `int(s, 16)` for the 2-character slices arising here (char codes:
digits are 48–57, lowercase a–f are 97–102, uppercase A–F are 65–70). -/
def isHexChar (c : Char) : Bool :=
  (48 ≤ c.toNat && c.toNat ≤ 57) || (97 ≤ c.toNat && c.toNat ≤ 102) ||
    (65 ≤ c.toNat && c.toNat ≤ 70)

/-- Value of one hexadecimal digit, by char code (97 − 10 = 87,
65 − 10 = 55). -/
def hexDigitVal (c : Char) : Option ℕ :=
  if 48 ≤ c.toNat && c.toNat ≤ 57 then some (c.toNat - 48)
  else if 97 ≤ c.toNat && c.toNat ≤ 102 then some (c.toNat - 87)
  else if 65 ≤ c.toNat && c.toNat ≤ 70 then some (c.toNat - 55)
  else none

/-- Whitespace as stripped by Python's `int(str)`: the characters `str`
treats as space in the ASCII range — `\t\n\v\f\r` (codes 9–13) and the
separator controls plus the space (codes 28–32).  Non-ASCII whitespace
(`\x85`, `\xa0`, …) and Python's normalization of non-ASCII decimal digits
lie outside this model; the fidelity statements below are scoped to ASCII
input accordingly. -/
def isPySpace (c : Char) : Bool :=
  (9 ≤ c.toNat && c.toNat ≤ 13) || (28 ≤ c.toNat && c.toNat ≤ 32)

/-- Strip leading and trailing whitespace, as `int(str, 16)` does before
parsing. -/
def stripPySpace (l : List Char) : List Char :=
  ((l.dropWhile isPySpace).reverse.dropWhile isPySpace).reverse

/-- The digit tail of an `int(s, 16)` literal after its first digit:
`('_'? digit)*` — a single underscore is allowed between digits, never
doubled, leading or trailing. -/
def parseHexDigits : ℕ → List Char → Option ℕ
  | acc, [] => some acc
  | acc, c :: rest =>
    if c = '_' then
      match rest with
      | [] => none
      | d :: rest2 =>
        match hexDigitVal d with
        | some v => parseHexDigits (acc * 16 + v) rest2
        | none => none
    else
      match hexDigitVal c with
      | some v => parseHexDigits (acc * 16 + v) rest
      | none => none

/-- A nonempty digit sequence: a first hex digit, then `('_'? digit)*`. -/
def parseHexBody (l : List Char) : Option ℕ :=
  match l with
  | [] => none
  | c :: rest =>
    match hexDigitVal c with
    | some v => parseHexDigits v rest
    | none => none

/-- The part after the optional sign: an optional `0x`/`0X` prefix (which
may be followed by one underscore), then the digit sequence. -/
def parseAfterSign (l : List Char) : Option ℕ :=
  match l with
  | a :: b :: rest =>
    if a = '0' ∧ (b = 'x' ∨ b = 'X') then
      match rest with
      | [] => none
      | d :: rest2 => if d = '_' then parseHexBody rest2 else parseHexBody (d :: rest2)
    else parseHexBody (a :: b :: rest)
  | l => parseHexBody l

/-- Python `int(s, 16)` on a character list: strip whitespace on both ends,
accept one optional `+`/`-` sign, an optional `0x`/`0X` prefix and
underscore digit separators, and require at least one hex digit; `none`
models the `ValueError` on every other input.  The result is an integer —
a leading `-` yields a negative value. -/
def parseHex (l : List Char) : Option ℤ :=
  match stripPySpace l with
  | [] => none
  | c :: rest =>
    if c = '+' then (parseAfterSign rest).map (fun n => (n : ℤ))
    else if c = '-' then (parseAfterSign rest).map (fun n => -(n : ℤ))
    else (parseAfterSign (c :: rest)).map (fun n => (n : ℤ))

/-- Python slicing `l[i:j]` for `0 ≤ i ≤ j` (clamped to the list length). -/
def pySlice (l : List Char) (i j : ℕ) : List Char := (l.take j).drop i

/-- `hex_color.lstrip('#')`: drop every leading `'#'`. -/
def lstripHash (l : List Char) : List Char := l.dropWhile (· == '#')

/-- `TextureGenerator._hex_to_rgb`: strip leading `'#'`, then parse the slices
`[0:2]`, `[2:4]`, `[4:6]` as base-16 integers.  `none` models the `ValueError`
raised by `int` on a malformed slice. -/
def hex_to_rgb (s : List Char) : Option (ℤ × ℤ × ℤ) :=
  let h := lstripHash s
  match parseHex (pySlice h 0 2), parseHex (pySlice h 2 4), parseHex (pySlice h 4 6) with
  | some r, some g, some b => some (r, g, b)
  | _, _, _ => none

example : parseHex "1f".toList = some 31 := by decide
example : parseHex "0x1f".toList = some 31 := by decide
example : parseHex "0X_1f".toList = some 31 := by decide
example : parseHex "1_f".toList = some 31 := by decide
example : parseHex " +1f ".toList = some 31 := by decide
example : parseHex "-1f".toList = some (-31) := by decide
example : parseHex "0x".toList = none := by decide
example : parseHex "1__f".toList = none := by decide
example : parseHex "_1".toList = none := by decide
example : parseHex "1_".toList = none := by decide
example : parseHex "+ 1".toList = none := by decide
example : parseHex "".toList = none := by decide
example : hex_to_rgb "#4FD0E0".toList = some (79, 208, 224) := by decide
example : hex_to_rgb "12345".toList = some (18, 52, 5) := by decide
example : hex_to_rgb " 12345".toList = some (1, 35, 69) := by decide
example : hex_to_rgb "+12345".toList = some (1, 35, 69) := by decide
example : hex_to_rgb "-12345".toList = some (-1, 35, 69) := by decide
example : hex_to_rgb "1234".toList = none := by decide
example : hex_to_rgb "#12z456".toList = none := by decide
example : pyInt (511/2) = 255 := by norm_num [pyInt, ratFloor_eq_intFloor]
example : pyInt (-5/2) = -2 := by norm_num [pyInt, ratFloor_eq_intFloor]

/-- An RGB pixel as the source computes it (Python ints, before storage). -/
abbrev Pixel := ℤ × ℤ × ℤ

/-- Every channel of a pixel lies in the displayable byte range `[0, 255]`. -/
def inRange (p : Pixel) : Prop :=
  0 ≤ p.1 ∧ p.1 ≤ 255 ∧ 0 ≤ p.2.1 ∧ p.2.1 ≤ 255 ∧ 0 ≤ p.2.2 ∧ p.2.2 ≤ 255

instance (p : Pixel) : Decidable (inRange p) := by unfold inRange; infer_instance

/-- The image geometry and texture directory held by a `TextureGenerator`
instance (`__init__`). -/
structure TextureGenerator where
  width : ℕ
  height : ℕ
  texture_dir : List Char

/-- The `TextureGenerator(...)` default construction: 1024×512 under
`static/textures`. -/
def TextureGenerator.default : TextureGenerator :=
  ⟨1024, 512, "static/textures".toList⟩

/-- Per-pixel value of `_generate_star_texture` (before the final Gaussian
blur): `intensity = pnoise2(nx*10, ny*10, octaves=3)`,
`factor = 0.6 + 0.4*intensity`, channel `min(255, int(c*factor))`. -/
def starPixel (noise : ℚ → ℚ → ℕ → ℚ) (w h : ℕ) (rgb : Pixel) (x y : ℕ) : Pixel :=
  let nx : ℚ := (x : ℚ) / (w : ℚ)
  let ny : ℚ := (y : ℚ) / (h : ℚ)
  let intensity := noise (nx * 10) (ny * 10) 3
  let factor := 3/5 + 2/5 * intensity
  (min 255 (pyInt ((rgb.1 : ℚ) * factor)),
   min 255 (pyInt ((rgb.2.1 : ℚ) * factor)),
   min 255 (pyInt ((rgb.2.2 : ℚ) * factor)))

/-- Per-pixel value of `_generate_gas_texture` (before the blur):
`f = pnoise2(x/100, y/100, octaves=4)`, `factor = 0.8 + 0.3*f`, channel
`min(255, max(0, int(c*factor)))`. -/
def gasPixel (noise : ℚ → ℚ → ℕ → ℚ) (rgb : Pixel) (x y : ℕ) : Pixel :=
  let f := noise ((x : ℚ) / 100) ((y : ℚ) / 100) 4
  let factor := 4/5 + 3/10 * f
  (min 255 (max 0 (pyInt ((rgb.1 : ℚ) * factor))),
   min 255 (max 0 (pyInt ((rgb.2.1 : ℚ) * factor))),
   min 255 (max 0 (pyInt ((rgb.2.2 : ℚ) * factor))))

/-- Per-pixel value of the `_generate_rocky_texture` base layer (before
`_add_craters`): `f = pnoise2(x/50, y/50, octaves=5)`,
`noise_val = int((f+1)/2*100) - 50`, channel `min(255, max(0, c+noise_val))`. -/
def rockyBasePixel (noise : ℚ → ℚ → ℕ → ℚ) (rgb : Pixel) (x y : ℕ) : Pixel :=
  let f := noise ((x : ℚ) / 50) ((y : ℚ) / 50) 5
  let noise_val := pyInt ((f + 1) / 2 * 100) - 50
  (min 255 (max 0 (rgb.1 + noise_val)),
   min 255 (max 0 (rgb.2.1 + noise_val)),
   min 255 (max 0 (rgb.2.2 + noise_val)))

/-- Per-pixel value of `_generate_ice_texture` (before the smoothing filter):
`crack = int((pnoise2(x/20, y/20, octaves=6) + 1) * 128)`, pixel
`(crack, crack, min(255, crack + 20))`.  The `(230,245,255)` base fill is
overwritten at every pixel by the loop. -/
def icePixel (noise : ℚ → ℚ → ℕ → ℚ) (x y : ℕ) : Pixel :=
  let crack := pyInt ((noise ((x : ℚ) / 20) ((y : ℚ) / 20) 6 + 1) * 128)
  (crack, crack, min 255 (crack + 20))

/-- Per-pixel value of `_generate_terrestrial_texture`:
`noise = pnoise2(nx*3, ny*3, octaves=3)`; land `(34,139,34)` when
`noise > 0.1`, else ocean `(65,105,225)`.  Takes no base color. -/
def terrestrialPixel (noise : ℚ → ℚ → ℕ → ℚ) (w h : ℕ) (x y : ℕ) : Pixel :=
  let nx : ℚ := (x : ℚ) / (w : ℚ)
  let ny : ℚ := (y : ℚ) / (h : ℚ)
  if noise (nx * 3) (ny * 3) 3 > 1/10 then (34, 139, 34) else (65, 105, 225)

/-- One crater of `_add_craters`: a center and a radius, drawn in the source
by `random.randint(0, width-1)`, `random.randint(0, height-1)`,
`random.randint(5, 20)`. -/
structure Crater where
  cx : ℕ
  cy : ℕ
  radius : ℕ

/-- The effect of one crater of `_add_craters` on the pixel at `(x, y)`:
inside the clipped bounding box (`range(max(0,c-r), min(dim,c+r))`) and at
Euclidean distance below the radius, each channel drops by
`int((1 - dist/radius) * 80)`, clamped at 0; all other pixels are
untouched. -/
def stampPixel (sqrtQ : ℚ → ℚ) (w h : ℕ) (c : Crater) (x y : ℕ) (p : Pixel) : Pixel :=
  if c.cy - c.radius ≤ y ∧ y < min h (c.cy + c.radius) ∧
     c.cx - c.radius ≤ x ∧ x < min w (c.cx + c.radius) then
    let dist := sqrtQ (((x : ℚ) - (c.cx : ℚ)) ^ 2 + ((y : ℚ) - (c.cy : ℚ)) ^ 2)
    if dist < (c.radius : ℚ) then
      let darken := pyInt ((1 - dist / (c.radius : ℚ)) * 80)
      (max 0 (p.1 - darken), max 0 (p.2.1 - darken), max 0 (p.2.2 - darken))
    else p
  else p

/-- `_add_craters`: stamp the craters in order onto the image (a pixel
function); later craters compound the darkening of earlier ones. -/
def addCraters (sqrtQ : ℚ → ℚ) (w h : ℕ) (cs : List Crater)
    (img : ℕ → ℕ → Pixel) : ℕ → ℕ → Pixel :=
  cs.foldl (fun im c => fun x y => stampPixel sqrtQ w h c x y (im x y)) img

/-- The strategy dispatch in `generate_texture`: the `if/elif` chain on
`planet_type`, every unknown tag falling through to the terrestrial
strategy.  This is the image content rendered (and saved) on a cache miss. -/
def renderPixel (noise : ℚ → ℚ → ℕ → ℚ) (sqrtQ : ℚ → ℚ) (cs : List Crater)
    (w h : ℕ) (planet_type : List Char) (rgb : Pixel) : ℕ → ℕ → Pixel :=
  if planet_type = "star".toList then starPixel noise w h rgb
  else if planet_type = "gas".toList then gasPixel noise rgb
  else if planet_type = "rocky".toList then
    addCraters sqrtQ w h cs (rockyBasePixel noise rgb)
  else if planet_type = "ice".toList then icePixel noise
  else terrestrialPixel noise w h

/-- The result dictionary of `generate_texture`.  `cached` is `true` exactly
when the dictionary carries the `'cached': True` entry (the cache-hit
branch); the miss branch returns a dictionary without that key. -/
structure TexResult where
  diffuse : List Char
  type : List Char
  name : List Char
  cached : Bool
deriving DecidableEq

/-- The exceptions `generate_texture` can propagate: the `ValueError` from
`int(..., 16)` on a malformed color, and an I/O error raised while saving
the rendered image. -/
inductive TexError where
  | invalidColor : TexError
  | saveError : TexError
deriving DecidableEq

/-- Outcome of the persistence step `diffuse.save(diffuse_path, 'JPEG', …)`.
The source saves by passing the final path directly to the image library,
which opens (creates/truncates) the file at that path and then encodes into
it; there is no temporary file or atomic rename.  `ok` is a successful
write; `failNoFile` is an I/O error before the file is created (e.g. the
open itself fails); `failPartial` is an I/O error after creation (e.g. the
encoder fails or the disk fills mid-write), which leaves a partial file at
the path. -/
inductive SaveOutcome where
  | ok : SaveOutcome
  | failNoFile : SaveOutcome
  | failPartial : SaveOutcome
deriving DecidableEq

/-- The argument of the key hash: `f"{name}_{planet_type}_{base_color}"`. -/
def hashInput (planet_type base_color name : List Char) : List Char :=
  name ++ "_".toList ++ planet_type ++ "_".toList ++ base_color

/-- `texture_id`: the first 12 characters of the md5 hex digest of
`hashInput`. -/
def texture_id (md5hex : List Char → List Char)
    (planet_type base_color name : List Char) : List Char :=
  (md5hex (hashInput planet_type base_color name)).take 12

/-- `diffuse_path`: `f"{self.texture_dir}/{texture_id}_diffuse.jpg"`. -/
def diffuse_path (g : TextureGenerator) (md5hex : List Char → List Char)
    (planet_type base_color name : List Char) : List Char :=
  g.texture_dir ++ "/".toList ++ texture_id md5hex planet_type base_color name
    ++ "_diffuse.jpg".toList

/-- The URL reference `f"/textures/{texture_id}_diffuse.jpg"` returned in the
result dictionary. -/
def diffuse_ref (md5hex : List Char → List Char)
    (planet_type base_color name : List Char) : List Char :=
  "/textures/".toList ++ texture_id md5hex planet_type base_color name
    ++ "_diffuse.jpg".toList

/-- `TextureGenerator.generate_texture`: compute the key and path; if the
file exists, return the reference with `'cached': True`; otherwise parse the
color (a `ValueError` propagates), render the strategy image (its content is
`renderPixel`), save it to `diffuse_path`, and return the reference without
the cached flag.  Returns the outcome together with the filesystem after the
call; the unused `temperature` parameter is kept to mirror the signature. -/
def generate_texture (g : TextureGenerator) (md5hex : List Char → List Char)
    (fs : List Char → Bool) (save : SaveOutcome)
    (planet_type base_color name : List Char) (temperature : Option ℤ) :
    Except TexError TexResult × (List Char → Bool) :=
  let tid := texture_id md5hex planet_type base_color name
  let path := diffuse_path g md5hex planet_type base_color name
  if fs path then
    (.ok ⟨"/textures/".toList ++ tid ++ "_diffuse.jpg".toList,
          planet_type, name, true⟩, fs)
  else
    match hex_to_rgb base_color with
    | none => (.error .invalidColor, fs)
    | some _ =>
      match save with
      | .failNoFile => (.error .saveError, fs)
      | .failPartial => (.error .saveError, fun p => (p == path) || fs p)
      | .ok =>
        (.ok ⟨"/textures/".toList ++ tid ++ "_diffuse.jpg".toList,
              planet_type, name, false⟩, fun p => (p == path) || fs p)

/-- An RGBA pixel of the ring texture. -/
abbrev RGBAPixel := ℤ × ℤ × ℤ × ℤ

/-- A raster image with explicit dimensions, as produced by the ring
synthesizer (`Image.new('RGBA', (self.width, 64), (0,0,0,0))`). -/
structure RingImage where
  width : ℕ
  height : ℕ
  pix : ℕ → ℕ → RGBAPixel

/-- The image content of `generate_ring_texture`.  Per column `i`:
`draw i = true` models `random.random() > 0.1` (the non-gap branch), in
which case the whole column is the line color
`(clamp(r+v), clamp(g+v), clamp(b+v), int(uniform(0.5,1.0)*opacity*255))`
with `v = randint(-15,15)` the per-column variation and `u` the uniform
sample; a gap column keeps the transparent fill `(0,0,0,0)`. -/
def generate_ring_image (g : TextureGenerator) (draw : ℕ → Bool)
    (u : ℕ → ℚ) (v : ℕ → ℤ) (rgb : Pixel) (opacity : ℚ) : RingImage :=
  { width := g.width
    height := 64
    pix := fun x _y =>
      if draw x then
        (max 0 (min 255 (rgb.1 + v x)),
         max 0 (min 255 (rgb.2.1 + v x)),
         max 0 (min 255 (rgb.2.2 + v x)),
         pyInt (u x * opacity * 255))
      else (0, 0, 0, 0) }

/-- Channel-wise `≤` between two pixels. -/
def chLe (p q : Pixel) : Prop := p.1 ≤ q.1 ∧ p.2.1 ≤ q.2.1 ∧ p.2.2 ≤ q.2.2

/-- All channels of a pixel are nonnegative. -/
def chNonneg (p : Pixel) : Prop := 0 ≤ p.1 ∧ 0 ≤ p.2.1 ∧ 0 ≤ p.2.2

instance (p q : Pixel) : Decidable (chLe p q) := by unfold chLe; infer_instance

instance (p : Pixel) : Decidable (chNonneg p) := by unfold chNonneg; infer_instance

theorem chLe_refl (p : Pixel) : chLe p p := ⟨le_refl _, le_refl _, le_refl _⟩

theorem chLe_trans {p q r : Pixel} (h1 : chLe p q) (h2 : chLe q r) : chLe p r :=
  ⟨h1.1.trans h2.1, h1.2.1.trans h2.2.1, h1.2.2.trans h2.2.2⟩

/-- The darkening amount of a crater is nonnegative whenever the distance
returned by `sqrt` is nonnegative and below the radius. -/
theorem darken_nonneg {dist r80 : ℚ} (hd : 0 ≤ dist) (hlt : dist < r80) :
    0 ≤ pyInt ((1 - dist / r80) * 80) := by
  have hr : 0 < r80 := lt_of_le_of_lt hd hlt
  have h1 : dist / r80 ≤ 1 := (div_le_one hr).mpr (le_of_lt hlt)
  exact pyInt_nonneg (by nlinarith)

/-- One crater stamp neither brightens any channel of a nonnegative pixel
nor drives any channel negative. -/
theorem stampPixel_le_nonneg (sqrtQ : ℚ → ℚ)
    (hs : ∀ q : ℚ, 0 ≤ q → 0 ≤ sqrtQ q) (w h : ℕ) (c : Crater) (x y : ℕ)
    (p : Pixel) (hp : chNonneg p) :
    chLe (stampPixel sqrtQ w h c x y p) p ∧ chNonneg (stampPixel sqrtQ w h c x y p) := by
  unfold stampPixel
  split
  · dsimp only
    split
    · rename_i hbox hdist
      have hd0 : 0 ≤ sqrtQ (((x : ℚ) - (c.cx : ℚ)) ^ 2 + ((y : ℚ) - (c.cy : ℚ)) ^ 2) :=
        hs _ (by positivity)
      have hdk := darken_nonneg hd0 hdist
      refine ⟨⟨max_le hp.1 (by linarith), max_le hp.2.1 (by linarith),
               max_le hp.2.2 (by linarith)⟩,
              le_max_left _ _, le_max_left _ _, le_max_left _ _⟩
    · exact ⟨chLe_refl p, hp⟩
  · exact ⟨chLe_refl p, hp⟩

/-- The crater pass as a whole neither brightens any channel of a
nonnegative pixel nor drives any channel negative. -/
theorem addCraters_le_nonneg (sqrtQ : ℚ → ℚ)
    (hs : ∀ q : ℚ, 0 ≤ q → 0 ≤ sqrtQ q) (w h : ℕ) (cs : List Crater) :
    ∀ (img : ℕ → ℕ → Pixel) (x y : ℕ), chNonneg (img x y) →
      chLe (addCraters sqrtQ w h cs img x y) (img x y) ∧
      chNonneg (addCraters sqrtQ w h cs img x y) := by
  induction cs with
  | nil => exact fun img x y hp => ⟨chLe_refl _, hp⟩
  | cons c cs ih =>
    intro img x y hp
    have hstep := stampPixel_le_nonneg sqrtQ hs w h c x y (img x y) hp
    have hrest := ih (fun x y => stampPixel sqrtQ w h c x y (img x y)) x y hstep.2
    exact ⟨chLe_trans hrest.1 hstep.1, hrest.2⟩

/-- C6: the Crater Stamper is pixel-wise monotonically darkening: provided
the square root is nonnegative on nonnegative inputs, for every input image
with nonnegative channels (in particular the all-white image), every list of
crater center/radius choices, and every pixel, each channel after
`_add_craters` is at most its value before the pass, and remains clamped at
0 from below. -/
theorem crater_stamper_darkening (sqrtQ : ℚ → ℚ)
    (hs : ∀ q : ℚ, 0 ≤ q → 0 ≤ sqrtQ q) (w h : ℕ) (cs : List Crater)
    (img : ℕ → ℕ → Pixel) (x y : ℕ) (hp : chNonneg (img x y)) :
    chLe (addCraters sqrtQ w h cs img x y) (img x y) ∧
    chNonneg (addCraters sqrtQ w h cs img x y) :=
  addCraters_le_nonneg sqrtQ hs w h cs img x y hp

/-- Witness for C6: a concrete crater list applied to the all-white
1024×512 image at pixel (0,0). -/
theorem crater_stamper_darkening_witness :
    chLe (addCraters id 1024 512 [⟨3, 3, 5⟩, ⟨10, 2, 20⟩]
            (fun _ _ => ((255 : ℤ), (255 : ℤ), (255 : ℤ))) 0 0)
         ((fun _ _ => ((255 : ℤ), (255 : ℤ), (255 : ℤ))) 0 0) ∧
    chNonneg (addCraters id 1024 512 [⟨3, 3, 5⟩, ⟨10, 2, 20⟩]
            (fun _ _ => ((255 : ℤ), (255 : ℤ), (255 : ℤ))) 0 0) :=
  crater_stamper_darkening id (fun _ hq => hq) 1024 512 _ _ 0 0
    (by decide)

/-- Every channel of a pixel lies in `[0, 256]`: the range the ice strategy
actually guarantees for noise samples in `[-1, 1]`. -/
def inRange256 (p : Pixel) : Prop :=
  0 ≤ p.1 ∧ p.1 ≤ 256 ∧ 0 ≤ p.2.1 ∧ p.2.1 ≤ 256 ∧ 0 ≤ p.2.2 ∧ p.2.2 ≤ 256

instance (p : Pixel) : Decidable (inRange256 p) := by unfold inRange256; infer_instance

theorem min255_range {v : ℤ} (hv : 0 ≤ v) : 0 ≤ min 255 v ∧ min 255 v ≤ 255 :=
  ⟨le_min (by norm_num) hv, min_le_left _ _⟩

theorem clamp_range (v : ℤ) :
    0 ≤ min 255 (max 0 v) ∧ min 255 (max 0 v) ≤ 255 :=
  min255_range (le_max_left 0 v)

/-- A star-strategy channel `min(255, int(c * (0.6 + 0.4*i)))` stays in
range for a nonnegative base channel and `i ≥ -1`. -/
theorem starChannel_range {c : ℤ} {i : ℚ} (hc : 0 ≤ c) (hi : -1 ≤ i) :
    0 ≤ min 255 (pyInt ((c : ℚ) * (3/5 + 2/5 * i))) ∧
    min 255 (pyInt ((c : ℚ) * (3/5 + 2/5 * i))) ≤ 255 :=
  min255_range (pyInt_nonneg (mul_nonneg (by exact_mod_cast hc) (by linarith)))

/-- The ice crack value is nonnegative for noise `≥ -1`. -/
theorem iceCrack_nonneg {f : ℚ} (hf : -1 ≤ f) : 0 ≤ pyInt ((f + 1) * 128) :=
  pyInt_nonneg (mul_nonneg (by linarith) (by norm_num))

/-- The ice crack value stays at or below 255 for noise strictly below 1. -/
theorem iceCrack_le_255 {f : ℚ} (hf1 : -1 ≤ f) (hf : f < 1) :
    pyInt ((f + 1) * 128) ≤ 255 := by
  have h := pyInt_lt (q := (f + 1) * 128) (n := 256)
    (mul_nonneg (by linarith) (by norm_num)) (by push_cast; nlinarith)
  omega

/-- The ice crack value never exceeds 256 for noise at or below 1. -/
theorem iceCrack_le_256 {f : ℚ} (hf1 : -1 ≤ f) (hf : f ≤ 1) :
    pyInt ((f + 1) * 128) ≤ 256 :=
  pyInt_le (mul_nonneg (by linarith) (by norm_num)) (by push_cast; nlinarith)

/-- C2 (amended): for a base color with all channels in `[0,255]` and noise
samples in `[-1,1]`, every pixel of the star, gas, rocky (before and after
craters) and terrestrial strategies has every channel in `[0,255]`, and no
channel ever goes negative.  The ice strategy guarantees `[0,255]` only for
noise samples strictly below 1; at a sample equal to 1 its red and green
channels reach 256 (see the counterexample), and `[0,256]` is the bound that
holds over all of `[-1,1]`. -/
theorem surface_pixel_ranges (noise : ℚ → ℚ → ℕ → ℚ) (sqrtQ : ℚ → ℚ)
    (hs : ∀ q : ℚ, 0 ≤ q → 0 ≤ sqrtQ q) (w h : ℕ) (cs : List Crater)
    (r g b : ℤ) (hr : 0 ≤ r ∧ r ≤ 255) (hg : 0 ≤ g ∧ g ≤ 255)
    (hb : 0 ≤ b ∧ b ≤ 255)
    (hn : ∀ (a b' : ℚ) (o : ℕ), -1 ≤ noise a b' o ∧ noise a b' o ≤ 1)
    (x y : ℕ) :
    inRange (starPixel noise w h (r, g, b) x y) ∧
    inRange (gasPixel noise (r, g, b) x y) ∧
    inRange (rockyBasePixel noise (r, g, b) x y) ∧
    inRange (addCraters sqrtQ w h cs (rockyBasePixel noise (r, g, b)) x y) ∧
    inRange (terrestrialPixel noise w h x y) ∧
    (noise ((x : ℚ) / 20) ((y : ℚ) / 20) 6 < 1 →
      inRange (icePixel noise x y)) ∧
    inRange256 (icePixel noise x y) := by
  have hrocky : inRange (rockyBasePixel noise (r, g, b) x y) := by
    unfold rockyBasePixel
    dsimp only
    exact ⟨(clamp_range _).1, (clamp_range _).2, (clamp_range _).1,
           (clamp_range _).2, (clamp_range _).1, (clamp_range _).2⟩
  refine ⟨?_, ?_, hrocky, ?_, ?_, ?_, ?_⟩
  · unfold starPixel
    dsimp only
    exact ⟨(starChannel_range hr.1 (hn _ _ 3).1).1,
           (starChannel_range hr.1 (hn _ _ 3).1).2,
           (starChannel_range hg.1 (hn _ _ 3).1).1,
           (starChannel_range hg.1 (hn _ _ 3).1).2,
           (starChannel_range hb.1 (hn _ _ 3).1).1,
           (starChannel_range hb.1 (hn _ _ 3).1).2⟩
  · unfold gasPixel
    dsimp only
    exact ⟨(clamp_range _).1, (clamp_range _).2, (clamp_range _).1,
           (clamp_range _).2, (clamp_range _).1, (clamp_range _).2⟩
  · have hcr := addCraters_le_nonneg sqrtQ hs w h cs
      (rockyBasePixel noise (r, g, b)) x y
      ⟨hrocky.1, hrocky.2.2.1, hrocky.2.2.2.2.1⟩
    exact ⟨hcr.2.1, hcr.1.1.trans hrocky.2.1,
           hcr.2.2.1, hcr.1.2.1.trans hrocky.2.2.2.1,
           hcr.2.2.2, hcr.1.2.2.trans hrocky.2.2.2.2.2⟩
  · unfold terrestrialPixel
    dsimp only
    split
    · decide
    · decide
  · intro hice
    have h1 := (hn ((x : ℚ) / 20) ((y : ℚ) / 20) 6).1
    have hcr0 := iceCrack_nonneg h1
    have hcr255 := iceCrack_le_255 h1 hice
    unfold icePixel
    dsimp only
    exact ⟨hcr0, hcr255, hcr0, hcr255,
           le_min (by norm_num) (by omega), min_le_left _ _⟩
  · have h1 := (hn ((x : ℚ) / 20) ((y : ℚ) / 20) 6).1
    have h2 := (hn ((x : ℚ) / 20) ((y : ℚ) / 20) 6).2
    have hcr0 := iceCrack_nonneg h1
    have hcr256 := iceCrack_le_256 h1 h2
    unfold icePixel
    dsimp only
    exact ⟨hcr0, hcr256, hcr0, hcr256,
           le_min (by norm_num) (by omega), (min_le_left _ _).trans (by norm_num)⟩

/-- The constant noise field with value 1, the upper endpoint of the noise
range the specification quantifies over. -/
def noiseOne : ℚ → ℚ → ℕ → ℚ := fun _ _ _ => 1

/-- The constant noise field with value 0. -/
def noiseZero : ℚ → ℚ → ℕ → ℚ := fun _ _ _ => 0

/-- Concrete evaluation of the ice strategy at the constant noise field 1:
`crack = int((1+1)*128) = 256`, so the pixel is `(256, 256, 255)`. -/
theorem icePixel_noiseOne_eval : icePixel noiseOne 0 0 = (256, 256, 255) := by
  have : pyInt ((noiseOne ((0 : ℕ) / 20) ((0 : ℕ) / 20) 6 + 1) * 128) = 256 := by
    norm_num [noiseOne, pyInt, ratFloor_eq_intFloor]
  simp only [icePixel, this]
  norm_num

/-- C2 counterexample: the constant noise field 1 lies in `[-1,1]`
everywhere, yet the ice strategy computes the pixel `(256, 256, 255)` at
`(0,0)` — its red and green channels overflow the `[0,255]` range. -/
theorem surface_pixel_ranges_counterexample :
    (∀ (a b : ℚ) (o : ℕ), -1 ≤ noiseOne a b o ∧ noiseOne a b o ≤ 1) ∧
    icePixel noiseOne 0 0 = (256, 256, 255) ∧
    ¬ inRange (icePixel noiseOne 0 0) := by
  refine ⟨fun a b o => by norm_num [noiseOne], icePixel_noiseOne_eval, ?_⟩
  rw [icePixel_noiseOne_eval]
  decide

/-- Witness for C2: concrete evaluation at the zero noise field, identity
square root, no craters, base color (200, 100, 50), pixel (0,0). -/
theorem surface_pixel_ranges_witness :
    inRange (starPixel noiseZero 1024 512 (200, 100, 50) 0 0) ∧
    inRange (gasPixel noiseZero (200, 100, 50) 0 0) ∧
    inRange (rockyBasePixel noiseZero (200, 100, 50) 0 0) ∧
    inRange (addCraters id 1024 512 [] (rockyBasePixel noiseZero (200, 100, 50)) 0 0) ∧
    inRange (terrestrialPixel noiseZero 1024 512 0 0) ∧
    inRange (icePixel noiseZero 0 0) ∧
    inRange256 (icePixel noiseZero 0 0) := by
  have h := surface_pixel_ranges noiseZero id (fun _ hq => hq) 1024 512 []
    200 100 50 (by decide) (by decide) (by decide)
    (fun a b' o => by norm_num [noiseZero]) 0 0
  exact ⟨h.1, h.2.1, h.2.2.1, h.2.2.2.1, h.2.2.2.2.1,
         h.2.2.2.2.2.1 (by norm_num [noiseZero]), h.2.2.2.2.2.2⟩

/-- C7 (amended): for any noise sample `f` at the ice scale with
`-1 ≤ f`, the ice pixel `(crack, crack, min(255, crack+20))` has red channel
at most the blue channel whenever `f < 1`, and red at most blue + 1 whenever
`f ≤ 1`.  At `f = 1` exactly, `crack = 256` while the blue channel is capped
at 255, so red exceeds blue by exactly 1 (see the counterexample). -/
theorem ice_red_le_blue (noise : ℚ → ℚ → ℕ → ℚ) (x y : ℕ)
    (h1 : -1 ≤ noise ((x : ℚ) / 20) ((y : ℚ) / 20) 6) :
    (noise ((x : ℚ) / 20) ((y : ℚ) / 20) 6 < 1 →
      (icePixel noise x y).1 ≤ (icePixel noise x y).2.2) ∧
    (noise ((x : ℚ) / 20) ((y : ℚ) / 20) 6 ≤ 1 →
      (icePixel noise x y).1 ≤ (icePixel noise x y).2.2 + 1) := by
  have hcr0 := iceCrack_nonneg h1
  unfold icePixel
  dsimp only
  constructor
  · intro hlt
    have hcr255 := iceCrack_le_255 h1 hlt
    omega
  · intro hle
    have hcr256 := iceCrack_le_256 h1 hle
    omega

/-- C7 counterexample: the constant noise field 1 lies in `[-1,1]`
everywhere, yet at `(0,0)` the ice strategy's red channel (256) strictly
exceeds its blue channel (255). -/
theorem ice_red_le_blue_counterexample :
    (∀ (a b : ℚ) (o : ℕ), -1 ≤ noiseOne a b o ∧ noiseOne a b o ≤ 1) ∧
    (icePixel noiseOne 0 0).1 = 256 ∧
    (icePixel noiseOne 0 0).2.2 = 255 ∧
    ¬ ((icePixel noiseOne 0 0).1 ≤ (icePixel noiseOne 0 0).2.2) := by
  refine ⟨fun a b o => by norm_num [noiseOne], ?_, ?_, ?_⟩ <;>
    rw [icePixel_noiseOne_eval] <;> decide

/-- Witness for C7: concrete evaluation at the zero noise field, pixel
(0,0). -/
theorem ice_red_le_blue_witness :
    (icePixel noiseZero 0 0).1 ≤ (icePixel noiseZero 0 0).2.2 ∧
    (icePixel noiseZero 0 0).1 ≤ (icePixel noiseZero 0 0).2.2 + 1 :=
  ⟨(ice_red_le_blue noiseZero 0 0 (by norm_num [noiseZero])).1
      (by norm_num [noiseZero]),
   (ice_red_le_blue noiseZero 0 0 (by norm_num [noiseZero])).2
      (by norm_num [noiseZero])⟩

/-- The strategy dispatch sends the tag `"terrestrial"` (and, by the same
`else` branch, every unknown tag) to the terrestrial pixel function, which
takes no base color. -/
theorem renderPixel_terrestrial (noise : ℚ → ℚ → ℕ → ℚ) (sqrtQ : ℚ → ℚ)
    (cs : List Crater) (w h : ℕ) (rgb : Pixel) :
    renderPixel noise sqrtQ cs w h "terrestrial".toList rgb =
      terrestrialPixel noise w h := by
  unfold renderPixel
  rw [if_neg (by decide), if_neg (by decide), if_neg (by decide),
      if_neg (by decide)]

/-- C5: terrestrial output is independent of the base color: two renders
differing only in the base color produce pixel-for-pixel identical images,
each pixel being the land color `(34,139,34)` when the noise sample exceeds
0.1 and the ocean color `(65,105,225)` otherwise. -/
theorem terrestrial_ignores_base_color (noise : ℚ → ℚ → ℕ → ℚ)
    (sqrtQ : ℚ → ℚ) (cs : List Crater) (w h : ℕ) (rgb1 rgb2 : Pixel)
    (x y : ℕ) :
    renderPixel noise sqrtQ cs w h "terrestrial".toList rgb1 x y =
      renderPixel noise sqrtQ cs w h "terrestrial".toList rgb2 x y ∧
    (noise ((x : ℚ) / (w : ℚ) * 3) ((y : ℚ) / (h : ℚ) * 3) 3 > 1/10 →
      renderPixel noise sqrtQ cs w h "terrestrial".toList rgb1 x y =
        (34, 139, 34)) ∧
    (¬ noise ((x : ℚ) / (w : ℚ) * 3) ((y : ℚ) / (h : ℚ) * 3) 3 > 1/10 →
      renderPixel noise sqrtQ cs w h "terrestrial".toList rgb1 x y =
        (65, 105, 225)) := by
  rw [renderPixel_terrestrial, renderPixel_terrestrial]
  unfold terrestrialPixel
  dsimp only
  refine ⟨rfl, fun hgt => ?_, fun hle => ?_⟩
  · rw [if_pos hgt]
  · rw [if_neg hle]

/-- Witness for C5: concrete evaluation at the zero noise field with two
different base colors; the sample 0 does not exceed 0.1, so the pixel is the
ocean color. -/
theorem terrestrial_ignores_base_color_witness :
    renderPixel noiseZero id [] 1024 512 "terrestrial".toList (255, 0, 0) 0 0 =
      renderPixel noiseZero id [] 1024 512 "terrestrial".toList (0, 0, 255) 0 0 ∧
    renderPixel noiseZero id [] 1024 512 "terrestrial".toList (255, 0, 0) 0 0 =
      (65, 105, 225) :=
  ⟨(terrestrial_ignores_base_color noiseZero id [] 1024 512 (255, 0, 0)
      (0, 0, 255) 0 0).1,
   (terrestrial_ignores_base_color noiseZero id [] 1024 512 (255, 0, 0)
      (0, 0, 255) 0 0).2.2 (by norm_num [noiseZero])⟩

/-- C10: the optional `temperature` parameter is bound in the signature of
`generate_texture` but never read: two calls differing only in it return the
same outcome and the same filesystem (and the rendered image, `renderPixel`,
takes no temperature argument at all). -/
theorem temperature_never_read (g : TextureGenerator)
    (md5hex : List Char → List Char) (fs : List Char → Bool)
    (save : SaveOutcome) (planet_type base_color name : List Char)
    (t1 t2 : Option ℤ) :
    generate_texture g md5hex fs save planet_type base_color name t1 =
      generate_texture g md5hex fs save planet_type base_color name t2 :=
  rfl

/-- C8: the ring synthesizer's image is always `width × 64` RGBA (width from
the generator's configuration), and every column on which the gap branch is
taken (`random.random() > 0.1` false, i.e. `draw x = false`) is left fully
transparent: all four channels, in particular the alpha, stay at the
`(0,0,0,0)` fill. -/
theorem ring_image_shape (g : TextureGenerator) (draw : ℕ → Bool)
    (u : ℕ → ℚ) (v : ℕ → ℤ) (rgb : Pixel) (opacity : ℚ) :
    (generate_ring_image g draw u v rgb opacity).width = g.width ∧
    (generate_ring_image g draw u v rgb opacity).height = 64 ∧
    ∀ x y : ℕ, draw x = false →
      (generate_ring_image g draw u v rgb opacity).pix x y = (0, 0, 0, 0) := by
  refine ⟨rfl, rfl, fun x y hx => ?_⟩
  simp [generate_ring_image, hx]

/-- Witness for C8: a ring with every column a gap, at column 0, row 0. -/
theorem ring_image_shape_witness :
    (generate_ring_image TextureGenerator.default (fun _ => false)
      (fun _ => 1/2) (fun _ => 0) (200, 180, 150) 1).width = 1024 ∧
    (generate_ring_image TextureGenerator.default (fun _ => false)
      (fun _ => 1/2) (fun _ => 0) (200, 180, 150) 1).height = 64 ∧
    (generate_ring_image TextureGenerator.default (fun _ => false)
      (fun _ => 1/2) (fun _ => 0) (200, 180, 150) 1).pix 0 0 = (0, 0, 0, 0) :=
  ⟨(ring_image_shape TextureGenerator.default (fun _ => false)
      (fun _ => 1/2) (fun _ => 0) (200, 180, 150) 1).1,
   (ring_image_shape TextureGenerator.default (fun _ => false)
      (fun _ => 1/2) (fun _ => 0) (200, 180, 150) 1).2.1,
   (ring_image_shape TextureGenerator.default (fun _ => false)
      (fun _ => 1/2) (fun _ => 0) (200, 180, 150) 1).2.2 0 0 rfl⟩

/-- A stand-in md5 hex digest function used by concrete witnesses. -/
def md5cDemo : List Char → List Char :=
  fun _ => "00112233445566778899aabbccddeeff".toList

/-- The empty filesystem: no path exists. -/
def fsEmpty : List Char → Bool := fun _ => false

/-- A character that is not a hex digit has no digit value. -/
theorem hexDigitVal_eq_none {c : Char} (h : isHexChar c = false) :
    hexDigitVal c = none := by
  unfold isHexChar at h
  rcases Bool.or_eq_false_iff.mp h with ⟨h12, h3⟩
  rcases Bool.or_eq_false_iff.mp h12 with ⟨h1, h2⟩
  unfold hexDigitVal
  rw [if_neg (by simp [h1]), if_neg (by simp [h2]), if_neg (by simp [h3])]

/-- An ASCII character that can never occur in a successful
at-most-2-character `int(s, 16)` slice: not a hex digit, not whitespace,
not a sign.  (`x`, `X` and `_` are such characters: a bare `0x`, or an
underscore not between two digits, is a `ValueError`, and a 2-character
slice cannot hold a prefixed or separated digit.)  The ASCII bound scopes
the statement to where the model is faithful (§ `isPySpace`). -/
def isBadSliceChar (c : Char) : Prop :=
  c.toNat ≤ 127 ∧ isHexChar c = false ∧ isPySpace c = false ∧
    c ≠ '+' ∧ c ≠ '-'

instance (c : Char) : Decidable (isBadSliceChar c) := by
  unfold isBadSliceChar; infer_instance

theorem stripPySpace_single {a : Char} (ha : isPySpace a = false) :
    stripPySpace [a] = [a] := by
  simp [stripPySpace, List.dropWhile_cons, ha]

theorem stripPySpace_pair_nn {a b : Char} (ha : isPySpace a = false)
    (hb : isPySpace b = false) : stripPySpace [a, b] = [a, b] := by
  simp [stripPySpace, List.dropWhile_cons, ha, hb]

theorem stripPySpace_pair_wsr {a b : Char} (ha : isPySpace a = false)
    (hb : isPySpace b = true) : stripPySpace [a, b] = [a] := by
  simp [stripPySpace, List.dropWhile_cons, ha, hb]

theorem stripPySpace_pair_wsl {a b : Char} (ha : isPySpace a = true)
    (hb : isPySpace b = false) : stripPySpace [a, b] = [b] := by
  simp [stripPySpace, List.dropWhile_cons, ha, hb]

theorem parseHexBody_single_bad {b : Char} (hhex : isHexChar b = false) :
    parseHexBody [b] = none := by
  unfold parseHexBody
  dsimp only
  rw [hexDigitVal_eq_none hhex]

/-- On lists shorter than two elements the prefix test cannot fire. -/
theorem parseAfterSign_single (b : Char) :
    parseAfterSign [b] = parseHexBody [b] := rfl

theorem parseHexDigits_single_bad {v : ℕ} {b : Char}
    (hhex : isHexChar b = false) : parseHexDigits v [b] = none := by
  by_cases hb : b = '_'
  · subst hb
    rfl
  · unfold parseHexDigits
    dsimp only
    rw [if_neg hb, hexDigitVal_eq_none hhex]

theorem parseAfterSign_pair_bad_a {a b : Char} (hhex : isHexChar a = false) :
    parseAfterSign [a, b] = none := by
  have h0 : ¬(a = '0' ∧ (b = 'x' ∨ b = 'X')) := by
    rintro ⟨rfl, -⟩
    exact absurd hhex (by decide)
  unfold parseAfterSign
  dsimp only
  rw [if_neg h0]
  unfold parseHexBody
  dsimp only
  rw [hexDigitVal_eq_none hhex]

theorem parseAfterSign_pair_bad_b {a b : Char} (hhex : isHexChar b = false) :
    parseAfterSign [a, b] = none := by
  by_cases h0 : a = '0' ∧ (b = 'x' ∨ b = 'X')
  · unfold parseAfterSign
    dsimp only
    rw [if_pos h0]
  · unfold parseAfterSign
    dsimp only
    rw [if_neg h0]
    unfold parseHexBody
    dsimp only
    cases hda : hexDigitVal a with
    | none => rfl
    | some v => exact parseHexDigits_single_bad hhex

theorem parseHex_single_bad {a : Char} (hhex : isHexChar a = false)
    (hws : isPySpace a = false) (hp : a ≠ '+') (hm : a ≠ '-') :
    parseHex [a] = none := by
  unfold parseHex
  rw [stripPySpace_single hws]
  dsimp only
  rw [if_neg hp, if_neg hm, parseAfterSign_single,
      parseHexBody_single_bad hhex]
  rfl

/-- In a slice of at most two characters, a character that is not a hex
digit, not whitespace and not a sign makes `int(s, 16)` fail, whatever the
other character is. -/
theorem parseHex_eq_none_of_bad {l : List Char} (hlen : l.length ≤ 2)
    {c : Char} (hc : c ∈ l) (hbad : isBadSliceChar c) : parseHex l = none := by
  obtain ⟨-, hhex, hws, hp, hm⟩ := hbad
  rcases l with _ | ⟨a, _ | ⟨b, _ | ⟨d, t⟩⟩⟩
  · cases hc
  · rcases List.mem_singleton.mp hc with rfl
    exact parseHex_single_bad hhex hws hp hm
  · rcases List.mem_cons.mp hc with rfl | hb
    · by_cases hwb : isPySpace b = true
      · unfold parseHex
        rw [stripPySpace_pair_wsr hws hwb]
        dsimp only
        rw [if_neg hp, if_neg hm, parseAfterSign_single,
            parseHexBody_single_bad hhex]
        rfl
      · unfold parseHex
        rw [stripPySpace_pair_nn hws (by simpa using hwb)]
        dsimp only
        rw [if_neg hp, if_neg hm, parseAfterSign_pair_bad_a hhex]
        rfl
    · rcases List.mem_singleton.mp hb with rfl
      by_cases hwa : isPySpace a = true
      · unfold parseHex
        rw [stripPySpace_pair_wsl hwa hws]
        dsimp only
        rw [if_neg hp, if_neg hm, parseAfterSign_single,
            parseHexBody_single_bad hhex]
        rfl
      · unfold parseHex
        rw [stripPySpace_pair_nn (by simpa using hwa) hws]
        dsimp only
        by_cases hap : a = '+'
        · rw [if_pos hap, parseAfterSign_single,
              parseHexBody_single_bad hhex]
          rfl
        · by_cases ham : a = '-'
          · rw [if_neg hap, if_pos ham, parseAfterSign_single,
                parseHexBody_single_bad hhex]
            rfl
          · rw [if_neg hap, if_neg ham, parseAfterSign_pair_bad_b hhex]
            rfl
  · exfalso
    simp only [List.length_cons] at hlen
    omega

/-- Each of the three color slices has at most two characters. -/
theorem pySlice_length_le_two (l : List Char) (i : ℕ) :
    (pySlice l i (i + 2)).length ≤ 2 := by
  unfold pySlice
  rw [List.length_drop, List.length_take]
  omega

/-- The three color slices `[0:2]`, `[2:4]`, `[4:6]` concatenate to the
first six characters. -/
theorem take6_decomp (l : List Char) :
    pySlice l 0 2 ++ pySlice l 2 4 ++ pySlice l 4 6 = l.take 6 := by
  unfold pySlice
  rw [List.drop_zero]
  have h1 : (l.take 4).take 2 = l.take 2 := by rw [List.take_take]; norm_num
  have h2 : (l.take 6).take 4 = l.take 4 := by rw [List.take_take]; norm_num
  rw [← h1, List.take_append_drop, ← h2, List.take_append_drop]

/-- `_hex_to_rgb` fails when fewer than five characters remain after
stripping `'#'` (the `[4:6]` slice is empty, and `int('', 16)` raises), or
when a character that no successful slice can contain (`isBadSliceChar`)
occurs among the first six. -/
theorem hex_to_rgb_eq_none {s : List Char}
    (hbad : (lstripHash s).length ≤ 4 ∨
            ∃ c ∈ (lstripHash s).take 6, isBadSliceChar c) :
    hex_to_rgb s = none := by
  unfold hex_to_rgb
  dsimp only
  rcases hbad with hlen | ⟨c, hc, hbadc⟩
  · have h3 : pySlice (lstripHash s) 4 6 = [] := by
      unfold pySlice
      refine List.drop_eq_nil_of_le ?_
      rw [List.length_take]
      exact le_trans (min_le_right _ _) hlen
    rw [h3]
    cases parseHex (pySlice (lstripHash s) 0 2) <;>
      cases parseHex (pySlice (lstripHash s) 2 4) <;> rfl
  · rw [← take6_decomp] at hc
    rcases List.mem_append.mp hc with hc12 | hc3
    · rcases List.mem_append.mp hc12 with hc1 | hc2
      · rw [parseHex_eq_none_of_bad
              (by simpa using pySlice_length_le_two (lstripHash s) 0)
              hc1 hbadc]
      · rw [parseHex_eq_none_of_bad
              (by simpa using pySlice_length_le_two (lstripHash s) 2)
              hc2 hbadc]
        cases parseHex (pySlice (lstripHash s) 0 2) <;> rfl
    · rw [parseHex_eq_none_of_bad
            (by simpa using pySlice_length_le_two (lstripHash s) 4)
            hc3 hbadc]
      cases parseHex (pySlice (lstripHash s) 0 2) <;>
        cases parseHex (pySlice (lstripHash s) 2 4) <;> rfl

